import Mathlib

/-!
# A verification of the Game of Life simulation core (`gameoflife.py`)

This file embeds the core of the repository's Game of Life implementation —
the grid representation, the neighbor-counting topology resolver, the
generation update, the board composer primitives (`shift`, `add`, `glider`,
`empty`) and the text codec (`show`/`parse`) — as executable Lean functions,
and proves properties of this embedding.

Modelling conventions:
* Python `bool` cells become `Bool` (`LIVE = true`, `DEAD = false`).
* A `Row` is a `List Bool`, a `Board` is a `List (List Bool)`.
* Python code that can raise (negative indexing of an empty list in the
  sphere branch of `neighbors`, the `assert` statements in `parse`,
  `board[0]`/`board[-1]` inside `shift`/`update`) is embedded in `Option`:
  `none` models an uncaught Python exception, `some v` a normal return.
* Python's `row[x] if 0 <= x < len(row) else default` becomes `ix`, with the
  index taken in `Int` so that `x - 1` at `x = 0` is genuinely negative.
* Strings are modelled as `List Char`; Python's `str.strip` becomes
  `pyStrip`, which removes the same ASCII whitespace characters.
-/

namespace GameOfLife

abbrev Cell := Bool
abbrev Row := List Bool
abbrev Board := List (List Bool)

/-- The `Surface` literal type: `"sphere" | "rectangle" | "infinite" |
"torus" | "?"` (the `"?"` enumerant is modelled as `question`). -/
inductive Surface where
  | sphere
  | rectangle
  | infinite
  | torus
  | question
deriving DecidableEq, Repr

abbrev LIVE : Cell := true
abbrev DEAD : Cell := false

/-- `empty_row()` returns `[]`. -/
def empty_row : Row := []

/-- `ix(row, x, default=DEAD)`: `row[x] if 0 <= x < len(row) else default`. -/
def ix (row : Row) (x : Int) (default : Cell) : Cell :=
  if 0 ≤ x ∧ x < row.length then row.getD x.toNat default else default

/-- `empty(width, height)`: a `height × width` all-Dead board. -/
def empty (width height : Nat) : Board :=
  List.replicate height (List.replicate width DEAD)

/-- `glider(up, left)`: the hard-coded 3×3 pattern, reversed vertically when
`not up` and horizontally when `not left`. -/
def glider (up left : Bool) : Board :=
  let out : Board := [[DEAD, LIVE, DEAD], [LIVE, LIVE, DEAD], [LIVE, DEAD, LIVE]]
  let out := if up then out else out.reverse
  if left then out else out.map List.reverse

/-- `add(board, other)` with the default operator `bool.__or__`: per-cell OR
over `board`'s shape, reading missing cells of `other` as Dead. -/
def add (board other : Board) : Board :=
  (List.range board.length).map (fun y =>
    let row := board.getD y []
    let other_row := other.getD y []
    (List.range row.length).map (fun x =>
      (row.getD x DEAD || ix other_row (x : Int) DEAD)))

/-- `shift(board, y, x)`.  The vertical loop runs `abs(y)` times: positive
`y` inserts Dead rows (of the first row's width) at the front, negative `y`
appends Dead rows (of the last row's width) at the end; on an empty board
either direction hits `board[0]`/`board[-1]` and raises (`none`).  The
horizontal loop runs `range(x)` times, so it prepends `x` Dead cells to every
row when `x > 0` and does nothing when `x ≤ 0`. -/
def shift (board : Board) (y x : Int) : Option Board :=
  let vert : Option Board :=
    if 0 < y then
      match board.head? with
      | none => none
      | some r0 => some (List.replicate y.toNat (List.replicate r0.length DEAD) ++ board)
    else if y < 0 then
      match board.getLast? with
      | none => none
      | some rl => some (board ++ List.replicate (-y).toNat (List.replicate rl.length DEAD))
    else some board
  match vert with
  | none => none
  | some b => some (b.map (fun row => List.replicate x.toNat DEAD ++ row))

/-- `neighbors(x, row, prev_row, next_row, surface)`: counts `LIVE` among the
eight reads.  In the sphere branch every default argument (`row[-1]`,
`row[0]`, `next_row[-1]`, `next_row[0]`, `prev_row[-1]`, `prev_row[0]`) is
evaluated eagerly, so an empty `row`, `prev_row` or `next_row` raises
`IndexError` (`none`). -/
def neighbors (x : Int) (row prev_row next_row : Row) (surface : Surface) : Option Nat :=
  if surface = Surface.sphere then
    match row.getLast?, row.head?, next_row.getLast?, next_row.head?,
        prev_row.getLast?, prev_row.head? with
    | some rl, some rh, some nl, some nh, some pl, some ph =>
      some (List.count true
        [ix row (x - 1) rl, ix row (x + 1) rh,
         ix next_row (x - 1) nl, ix next_row x DEAD, ix next_row (x + 1) nh,
         ix prev_row (x - 1) pl, ix prev_row x DEAD, ix prev_row (x + 1) ph])
    | _, _, _, _, _, _ => none
  else
    some (List.count true
      [ix row (x - 1) DEAD, ix row (x + 1) DEAD,
       ix next_row (x - 1) DEAD, ix next_row x DEAD, ix next_row (x + 1) DEAD,
       ix prev_row (x - 1) DEAD, ix prev_row x DEAD, ix prev_row (x + 1) DEAD])

/-- The inline cell rule of `update`:
`LIVE if neighbor_count == 3 else cell if neighbor_count == 2 else DEAD`. -/
def rule (neighbor_count : Nat) (cell : Cell) : Cell :=
  if neighbor_count = 3 then LIVE else if neighbor_count = 2 then cell else DEAD

/-- The `prev_row` value `update` passes to `neighbors` for row `y`:
`empty_row()` (or `board[-1]` under sphere) for the first row, the previous
input row afterwards. -/
def prevRowOf (board : Board) (surface : Surface) (y : Nat) : Row :=
  if y = 0 then (if surface = Surface.sphere then board.getLastD [] else [])
  else board.getD (y - 1) []

/-- The `next_row` value `update` passes to `neighbors` for row `y`:
`board[y+1]` when in range, else `empty_row()`, overridden to `board[0]`
for the last row under sphere. -/
def nextRowOf (board : Board) (surface : Surface) (y : Nat) : Row :=
  if y + 1 < board.length then board.getD (y + 1) []
  else if surface = Surface.sphere ∧ y + 1 = board.length then board.headD []
  else []

/-- Sequencing of a fallible per-element computation, modelling a Python
`for` loop that appends to an accumulator and can raise. -/
def optMap {α β : Type} (f : α → Option β) : List α → Option (List β)
  | [] => some []
  | a :: l =>
    match f a, optMap f l with
    | some b, some r => some (b :: r)
    | _, _ => none

/-- The inner loop of `update` over one row. -/
def updateRow (row prev_row next_row : Row) (surface : Surface) : Option Row :=
  optMap (fun (x : Nat) =>
      match neighbors (x : Int) row prev_row next_row surface with
      | some nc => some (rule nc (row.getD x DEAD))
      | none => none)
    (List.range row.length)

/-- `update(board, surface)`: before the loop, sphere mode evaluates
`board[-1]`, which raises on an empty board; then each row is rewritten by
the rule using the tracked `prev_row` and computed `next_row`. -/
def update (board : Board) (surface : Surface) : Option Board :=
  if surface = Surface.sphere ∧ board = [] then none
  else
    optMap (fun y =>
        updateRow (board.getD y []) (prevRowOf board surface y)
          (nextRowOf board surface y) surface)
      (List.range board.length)

/-- `LIVE_STR = "# "`. -/
def LIVE_STR : List Char := ['#', ' ']

/-- `DEAD_STR = "  "`. -/
def DEAD_STR : List Char := [' ', ' ']

/-- One line of `show(board, alphabet, sep="")`: the concatenation of the
per-cell glyphs. -/
def showRow (alphabet : List Char × List Char) (row : Row) : List Char :=
  (row.map (fun cell => if cell then alphabet.1 else alphabet.2)).flatten

/-- The list of lines produced by `show`. -/
def showRows (board : Board) (alphabet : List Char × List Char) : List (List Char) :=
  board.map (showRow alphabet)

/-- `show(board, alphabet)`: the lines joined with `"\n"`. -/
def showBoard (board : Board) (alphabet : List Char × List Char) : List Char :=
  List.intercalate ['\n'] (showRows board alphabet)

/-- The ASCII whitespace characters removed by Python's `str.strip()`. -/
def isPySpace (c : Char) : Bool :=
  c = ' ' || c = '\t' || c = '\n' || c = '\r' || c = Char.ofNat 11 || c = Char.ofNat 12

/-- `str.strip()`: drop whitespace from both ends. -/
def pyStrip (l : List Char) : List Char :=
  ((l.dropWhile isPySpace).reverse.dropWhile isPySpace).reverse

/-- The default live-marker set `"#@&" + string.ascii_uppercase`. -/
def defaultLive : List Char :=
  ['#', '@', '&'] ++ (List.range 26).map (fun i => Char.ofNat (65 + i))

/-- The loop body of `parse` for one line: strip it, skip it when blank
(`none`), else decode each character against the live-marker set. -/
def parseLine (live : List Char) (l : List Char) : Option Row :=
  if (pyStrip l).length = 0 then none
  else some ((pyStrip l).map (fun c => if c ∈ live then LIVE else DEAD))

/-- `parse(lines, live)`: strip each line, skip blanks, decode the remaining
characters, then assert the board and every row are nonempty (an assertion
failure is `none`). -/
def parse (lines : List (List Char)) (live : List Char) : Option Board :=
  let output : Board := lines.filterMap (parseLine live)
  if 0 < output.length ∧ output.all (fun row => 0 < row.length) then some output
  else none

/-! ## Helper lemmas about `optMap` and list access -/

theorem optMap_length {α β : Type} (f : α → Option β) :
    ∀ (l : List α) (out : List β), optMap f l = some out → out.length = l.length := by
  intro l
  induction l with
  | nil =>
    intro out h
    simp only [optMap, Option.some.injEq] at h
    simp [← h]
  | cons a t ih =>
    intro out h
    simp only [optMap] at h
    cases hfa : f a with
    | none => rw [hfa] at h; simp at h
    | some b =>
      rw [hfa] at h
      cases hot : optMap f t with
      | none => rw [hot] at h; simp at h
      | some r =>
        rw [hot] at h
        simp only [Option.some.injEq] at h
        rw [← h]
        simp [ih r hot]

theorem optMap_getD {α β : Type} (da : α) (db : β) (f : α → Option β) :
    ∀ (l : List α) (out : List β), optMap f l = some out →
      ∀ i, i < l.length → ∃ b, f (l.getD i da) = some b ∧ out.getD i db = b := by
  intro l
  induction l with
  | nil => intro out h i hi; simp at hi
  | cons a t ih =>
    intro out h i hi
    simp only [optMap] at h
    cases hfa : f a with
    | none => rw [hfa] at h; simp at h
    | some b =>
      rw [hfa] at h
      cases hot : optMap f t with
      | none => rw [hot] at h; simp at h
      | some r =>
        rw [hot] at h
        simp only [Option.some.injEq] at h
        rw [← h]
        cases i with
        | zero => exact ⟨b, hfa, rfl⟩
        | succ k =>
          have hk : k < t.length := by simpa using hi
          simpa using ih r hot k hk

theorem optMap_isSome {α β : Type} (f : α → Option β) :
    ∀ l : List α, (∀ a ∈ l, ∃ b, f a = some b) → ∃ out, optMap f l = some out := by
  intro l
  induction l with
  | nil => intro _; exact ⟨[], rfl⟩
  | cons a t ih =>
    intro h
    obtain ⟨b, hb⟩ := h a (by simp)
    obtain ⟨r, hr⟩ := ih (fun z hz => h z (by simp [hz]))
    exact ⟨b :: r, by simp [optMap, hb, hr]⟩

theorem optMap_congr {α β : Type} {f g : α → Option β} :
    ∀ l : List α, (∀ a ∈ l, f a = g a) → optMap f l = optMap g l := by
  intro l
  induction l with
  | nil => intro _; rfl
  | cons a t ih =>
    intro h
    simp only [optMap]
    rw [h a (by simp), ih (fun z hz => h z (by simp [hz]))]

theorem optMap_eq_map {α β : Type} (f : α → Option β) (g : α → β) :
    ∀ l : List α, (∀ a ∈ l, f a = some (g a)) → optMap f l = some (l.map g) := by
  intro l
  induction l with
  | nil => intro _; rfl
  | cons a t ih =>
    intro h
    simp only [optMap, List.map_cons]
    rw [h a (by simp), ih (fun z hz => h z (by simp [hz]))]

theorem getD_replicate' {α : Type} (a d : α) (n k : Nat) :
    (List.replicate n a).getD k d = if k < n then a else d := by
  rw [List.getD_eq_getElem?_getD, List.getElem?_replicate]
  by_cases h : k < n <;> simp [h]

theorem getD_map_range {β : Type} (g : Nat → β) (d : β) (n k : Nat) :
    ((List.range n).map g).getD k d = if k < n then g k else d := by
  rw [List.getD_eq_getElem?_getD, List.getElem?_map]
  by_cases h : k < n
  · rw [List.getElem?_range h]; simp [h]
  · rw [List.getElem?_eq_none (by simpa using Nat.le_of_not_lt h)]; simp [h]

theorem getD_range (n k : Nat) (h : k < n) : (List.range n).getD k 0 = k := by
  rw [List.getD_eq_getElem?_getD, List.getElem?_range h]; rfl

theorem optMap_range_getD {β : Type} (db : β) (f : Nat → Option β) (n : Nat) (out : List β)
    (h : optMap f (List.range n) = some out) (i : Nat) (hi : i < n) :
    ∃ b, f i = some b ∧ out.getD i db = b := by
  have h2 := optMap_getD 0 db f (List.range n) out h i (by simpa using hi)
  rwa [getD_range n i hi] at h2

theorem getD_mem_of_lt {α : Type} (l : List α) (d : α) (n : Nat) (h : n < l.length) :
    l.getD n d ∈ l := by
  rw [List.getD_eq_getElem l d h]; exact List.getElem_mem h

theorem mem_of_getLast?_eq {α : Type} (l : List α) :
    ∀ a : α, l.getLast? = some a → a ∈ l := by
  induction l with
  | nil => intro a h; simp at h
  | cons b t ih =>
    intro a h
    cases t with
    | nil =>
      simp only [List.getLast?_singleton, Option.some.injEq] at h
      simp [h]
    | cons c u =>
      rw [List.getLast?_cons_cons] at h
      exact List.mem_cons_of_mem b (ih a h)

theorem exists_getLast?_of_ne_nil {α : Type} {l : List α} (h : l ≠ []) :
    ∃ a, l.getLast? = some a :=
  Option.isSome_iff_exists.mp (List.getLast?_isSome.mpr h)

theorem exists_head?_of_ne_nil {α : Type} {l : List α} (h : l ≠ []) :
    ∃ a, l.head? = some a :=
  Option.isSome_iff_exists.mp (List.head?_isSome.mpr h)

theorem getLast?_cons_replicate {α : Type} (b : α) :
    ∀ (m : Nat) (a : α), (a :: List.replicate m b).getLast? = some (if m = 0 then a else b) := by
  intro m
  induction m with
  | zero => intro a; rfl
  | succ k ih =>
    intro a
    rw [List.replicate_succ, List.getLast?_cons_cons, ih b]
    by_cases h : k = 0 <;> simp [h]

theorem count_true_pos {l : List Bool} (h : true ∈ l) : 0 < l.count true :=
  List.count_pos_iff.mpr h

/-- The cell rule produces Live exactly for count 3, or count 2 with a Live
input cell. -/
theorem rule_live_iff (nc : Nat) (cell : Cell) :
    rule nc cell = LIVE ↔ (nc = 3 ∨ (nc = 2 ∧ cell = LIVE)) := by
  unfold rule
  split_ifs with h1 h2
  · simp [h1]
  · simp [h1, h2]
  · simp [h1, h2]

/-! ## C1: the generation step applies the B3/S23-equivalent rule per cell -/

/-- C1: whenever `update board surface` returns a board, every output cell is
computed from that cell's live-neighbor count: count 3 gives Live, count 2
keeps the input cell unchanged, any other count gives Dead.  Equivalently,
the output cell is Live iff the count is 3, or the count is 2 and the input
cell was Live (so a live cell survives iff its count is in {2,3} and a dead
cell is born iff its count is 3). -/
theorem update_applies_rule_per_cell (board : Board) (surface : Surface) (out : Board)
    (y x : Nat) (hup : update board surface = some out)
    (hy : y < board.length) (hx : x < (board.getD y []).length) :
    ∃ nc, neighbors (x : Int) (board.getD y []) (prevRowOf board surface y)
        (nextRowOf board surface y) surface = some nc ∧
      (out.getD y []).getD x DEAD = rule nc ((board.getD y []).getD x DEAD) ∧
      ((out.getD y []).getD x DEAD = LIVE ↔
        (nc = 3 ∨ (nc = 2 ∧ (board.getD y []).getD x DEAD = LIVE))) := by
  unfold update at hup
  split at hup
  · exact absurd hup (by simp)
  · obtain ⟨row', hrow', hout⟩ := optMap_range_getD [] _ board.length out hup y hy
    unfold updateRow at hrow'
    obtain ⟨c, hc, hcell⟩ :=
      optMap_range_getD DEAD _ (board.getD y []).length row' hrow' x hx
    cases hnb : neighbors (x : Int) (board.getD y []) (prevRowOf board surface y)
        (nextRowOf board surface y) surface with
    | none => rw [hnb] at hc; simp at hc
    | some nc =>
      rw [hnb] at hc
      simp only [Option.some.injEq] at hc
      refine ⟨nc, rfl, ?_, ?_⟩
      · rw [hout, hcell, ← hc]
      · rw [hout, hcell, ← hc]
        exact rule_live_iff nc ((board.getD y []).getD x DEAD)

/-- Witness for C1 at the 2×2 all-Live board, cell (0,0): the neighbor count
is 3 and the output cell is Live. -/
theorem update_applies_rule_per_cell_witness :
    ∃ nc, neighbors ((0 : Nat) : Int) (([[LIVE, LIVE], [LIVE, LIVE]] : Board).getD 0 [])
        (prevRowOf [[LIVE, LIVE], [LIVE, LIVE]] Surface.rectangle 0)
        (nextRowOf [[LIVE, LIVE], [LIVE, LIVE]] Surface.rectangle 0)
        Surface.rectangle = some nc ∧
      (([[LIVE, LIVE], [LIVE, LIVE]] : Board).getD 0 []).getD 0 DEAD =
        rule nc ((([[LIVE, LIVE], [LIVE, LIVE]] : Board).getD 0 []).getD 0 DEAD) ∧
      ((([[LIVE, LIVE], [LIVE, LIVE]] : Board).getD 0 []).getD 0 DEAD = LIVE ↔
        (nc = 3 ∨ (nc = 2 ∧
          (([[LIVE, LIVE], [LIVE, LIVE]] : Board).getD 0 []).getD 0 DEAD = LIVE))) :=
  update_applies_rule_per_cell [[LIVE, LIVE], [LIVE, LIVE]] Surface.rectangle
    [[LIVE, LIVE], [LIVE, LIVE]] 0 0 (by decide) (by decide) (by decide)

/-! ## C10: the step preserves the board's shape row-for-row -/

/-- C10: whenever `update` returns a board, it has exactly as many rows as
the input and each output row has exactly the length of the corresponding
input row — including for inputs whose rows have unequal lengths. -/
theorem update_preserves_shape (board : Board) (surface : Surface) (out : Board)
    (hup : update board surface = some out) :
    out.length = board.length ∧
      ∀ y, y < board.length → (out.getD y []).length = (board.getD y []).length := by
  unfold update at hup
  split at hup
  · exact absurd hup (by simp)
  · refine ⟨(optMap_length _ _ _ hup).trans (List.length_range _), ?_⟩
    intro y hy
    obtain ⟨row', hrow', hout⟩ := optMap_range_getD [] _ board.length out hup y hy
    rw [hout]
    unfold updateRow at hrow'
    exact (optMap_length _ _ _ hrow').trans (List.length_range _)

/-- Witness for C10 on the ragged board `[[L],[L,L,L]]`, whose update is
`[[L],[L,L,F]]`: same row count, same row lengths. -/
theorem update_preserves_shape_witness :
    ([[LIVE], [LIVE, LIVE, DEAD]] : Board).length =
        ([[LIVE], [LIVE, LIVE, LIVE]] : Board).length ∧
      (([[LIVE], [LIVE, LIVE, DEAD]] : Board).getD 1 []).length =
        (([[LIVE], [LIVE, LIVE, LIVE]] : Board).getD 1 []).length :=
  ⟨(update_preserves_shape [[LIVE], [LIVE, LIVE, LIVE]] Surface.rectangle
      [[LIVE], [LIVE, LIVE, DEAD]] (by decide)).1,
   (update_preserves_shape [[LIVE], [LIVE, LIVE, LIVE]] Surface.rectangle
      [[LIVE], [LIVE, LIVE, DEAD]] (by decide)).2 1 (by decide)⟩

/-! ## C5: every non-sphere surface behaves exactly like rectangle -/

theorem prevRowOf_nonsphere (board : Board) {s : Surface} (h : s ≠ Surface.sphere)
    (y : Nat) : prevRowOf board s y = prevRowOf board Surface.rectangle y := by
  unfold prevRowOf; simp [h]

theorem nextRowOf_nonsphere (board : Board) {s : Surface} (h : s ≠ Surface.sphere)
    (y : Nat) : nextRowOf board s y = nextRowOf board Surface.rectangle y := by
  unfold nextRowOf; simp [h]

theorem neighbors_nonsphere (x : Int) (row prev_row next_row : Row) {s : Surface}
    (h : s ≠ Surface.sphere) :
    neighbors x row prev_row next_row s = neighbors x row prev_row next_row Surface.rectangle := by
  unfold neighbors; simp [h]

theorem updateRow_nonsphere (row prev_row next_row : Row) {s : Surface}
    (h : s ≠ Surface.sphere) :
    updateRow row prev_row next_row s = updateRow row prev_row next_row Surface.rectangle := by
  unfold updateRow
  apply optMap_congr
  intro x _
  rw [neighbors_nonsphere _ _ _ _ h]

/-- C5: for every surface other than sphere (rectangle, infinite, torus and
the `"?"` enumerant), `update` coincides with the rectangle update: bounded,
Dead-padded neighbor counting with no wraparound. -/
theorem update_nonsphere_eq_rectangle (board : Board) (s : Surface)
    (h : s ≠ Surface.sphere) : update board s = update board Surface.rectangle := by
  unfold update
  rw [if_neg (by simp [h]), if_neg (by simp)]
  apply optMap_congr
  intro y _
  rw [prevRowOf_nonsphere _ h, nextRowOf_nonsphere _ h, updateRow_nonsphere _ _ _ h]

/-- Witness for C5: the torus surface gives the rectangle update on `[[L]]`. -/
theorem update_nonsphere_eq_rectangle_witness :
    update [[LIVE]] Surface.torus = update [[LIVE]] Surface.rectangle :=
  update_nonsphere_eq_rectangle [[LIVE]] Surface.torus (by decide)

/-! ## C2: totality of `update` (corrected) -/

/-- C2 counterexample: on the sphere surface, a grid containing an empty row
next to a non-empty one makes `update` raise (the sphere branch of
`neighbors` eagerly evaluates `next_row[-1]`/`prev_row[-1]`, which is an
`IndexError` on an empty list), modelled as `none`.  So `update` is not
total for every surface on every ragged grid. -/
theorem update_sphere_empty_row_raises :
    update [[LIVE], []] Surface.sphere = none := by decide

theorem neighbors_nonsphere_some (x : Int) (row prev_row next_row : Row) {s : Surface}
    (h : s ≠ Surface.sphere) :
    ∃ k, neighbors x row prev_row next_row s = some k :=
  ⟨_, by unfold neighbors; rw [if_neg h]⟩

theorem neighbors_sphere_some (x : Int) {row prev_row next_row : Row}
    (hr : row ≠ []) (hp : prev_row ≠ []) (hn : next_row ≠ []) :
    ∃ k, neighbors x row prev_row next_row Surface.sphere = some k := by
  obtain ⟨rl, hrl⟩ := exists_getLast?_of_ne_nil hr
  obtain ⟨rh, hrh⟩ := exists_head?_of_ne_nil hr
  obtain ⟨nl, hnl⟩ := exists_getLast?_of_ne_nil hn
  obtain ⟨nh, hnh⟩ := exists_head?_of_ne_nil hn
  obtain ⟨pl, hpl⟩ := exists_getLast?_of_ne_nil hp
  obtain ⟨ph, hph⟩ := exists_head?_of_ne_nil hp
  refine ⟨List.count true
    [ix row (x - 1) rl, ix row (x + 1) rh,
     ix next_row (x - 1) nl, ix next_row x DEAD, ix next_row (x + 1) nh,
     ix prev_row (x - 1) pl, ix prev_row x DEAD, ix prev_row (x + 1) ph], ?_⟩
  unfold neighbors
  rw [if_pos rfl, hrl, hrh, hnl, hnh, hpl, hph]

theorem prevRowOf_sphere_mem (board : Board) (hb : board ≠ []) (y : Nat)
    (hy : y < board.length) : prevRowOf board Surface.sphere y ∈ board := by
  unfold prevRowOf
  by_cases h0 : y = 0
  · rw [if_pos h0, if_pos rfl]
    obtain ⟨a, ha⟩ := exists_getLast?_of_ne_nil hb
    rw [List.getLastD_eq_getLast?, ha]
    exact mem_of_getLast?_eq board a ha
  · rw [if_neg h0]
    exact getD_mem_of_lt board [] (y - 1) (by omega)

theorem nextRowOf_sphere_mem (board : Board) (hb : board ≠ []) (y : Nat)
    (hy : y < board.length) : nextRowOf board Surface.sphere y ∈ board := by
  unfold nextRowOf
  by_cases h1 : y + 1 < board.length
  · rw [if_pos h1]
    exact getD_mem_of_lt board [] (y + 1) h1
  · rw [if_neg h1, if_pos ⟨rfl, by omega⟩]
    obtain ⟨a, ha⟩ := exists_head?_of_ne_nil hb
    rw [List.headD_eq_head?, ha]
    exact List.mem_of_mem_head? (by simp [ha])

/-- C2 (amended): `update` is total for every non-sphere surface on every
grid, ragged or not (missing and out-of-range neighbor reads default to
Dead); on the sphere surface it returns normally provided the grid is
nonempty and has no empty row.  (The original claim fails for sphere on
grids with an empty row — see the counterexample.) -/
theorem update_total_amended :
    (∀ (board : Board) (s : Surface), s ≠ Surface.sphere →
        ∃ out, update board s = some out) ∧
    (∀ board : Board, board ≠ [] → (∀ r ∈ board, r ≠ []) →
        ∃ out, update board Surface.sphere = some out) := by
  constructor
  · intro board s hs
    unfold update
    rw [if_neg (by simp [hs])]
    apply optMap_isSome
    intro y _
    unfold updateRow
    apply optMap_isSome
    intro x _
    obtain ⟨k, hk⟩ := neighbors_nonsphere_some (x : Int) (board.getD y [])
      (prevRowOf board s y) (nextRowOf board s y) hs
    exact ⟨_, by rw [hk]⟩
  · intro board hb hrows
    unfold update
    rw [if_neg (by simp [hb])]
    apply optMap_isSome
    intro y hy
    have hy' : y < board.length := List.mem_range.mp hy
    unfold updateRow
    apply optMap_isSome
    intro x _
    obtain ⟨k, hk⟩ := neighbors_sphere_some (x : Int)
      (hrows _ (getD_mem_of_lt board [] y hy'))
      (hrows _ (prevRowOf_sphere_mem board hb y hy'))
      (hrows _ (nextRowOf_sphere_mem board hb y hy'))
    exact ⟨_, by rw [hk]⟩

/-- Witness for C2 (amended): rectangle on a ragged grid with an empty row,
and sphere on a nonempty grid without empty rows, both return boards. -/
theorem update_total_amended_witness :
    (∃ out, update [[LIVE], []] Surface.rectangle = some out) ∧
    (∃ out, update [[LIVE]] Surface.sphere = some out) :=
  ⟨update_total_amended.1 [[LIVE], []] Surface.rectangle (by decide),
   update_total_amended.2 [[LIVE]] (by decide) (by decide)⟩

/-! ## C6: parse rejects inputs that yield no rows -/

theorem parseLine_none_iff (live l : List Char) :
    parseLine live l = none ↔ pyStrip l = [] := by
  unfold parseLine
  by_cases h : (pyStrip l).length = 0
  · rw [if_pos h]
    simp [List.length_eq_zero.mp h]
  · rw [if_neg h]
    have h2 : pyStrip l ≠ [] := fun he => h (by rw [he]; rfl)
    simp [h2]

theorem parseLine_some_pos (live l : List Char) (row : Row)
    (h : parseLine live l = some row) : 0 < row.length := by
  unfold parseLine at h
  by_cases hlen : (pyStrip l).length = 0
  · rw [if_pos hlen] at h; simp at h
  · rw [if_neg hlen] at h
    simp only [Option.some.injEq] at h
    rw [← h, List.length_map]
    omega

theorem parse_none_iff (lines : List (List Char)) (live : List Char) :
    parse lines live = none ↔ ∀ l ∈ lines, pyStrip l = [] := by
  have hdef : parse lines live =
      (if 0 < (lines.filterMap (parseLine live)).length ∧
          (lines.filterMap (parseLine live)).all (fun row => 0 < row.length) then
        some (lines.filterMap (parseLine live))
      else none) := rfl
  rw [hdef]
  by_cases hout : lines.filterMap (parseLine live) = []
  · rw [hout]
    simp only [List.length_nil, List.all_nil]
    rw [if_neg (by simp)]
    rw [List.filterMap_eq_nil_iff] at hout
    simp only [parseLine_none_iff] at hout
    exact ⟨fun _ => hout, fun _ => rfl⟩
  · have hcond : 0 < (lines.filterMap (parseLine live)).length ∧
        (lines.filterMap (parseLine live)).all (fun row => 0 < row.length) = true := by
      refine ⟨List.length_pos.mpr hout, ?_⟩
      rw [List.all_eq_true]
      intro row hrow
      rw [List.mem_filterMap] at hrow
      obtain ⟨l, _, hl⟩ := hrow
      simpa using parseLine_some_pos live l row hl
    rw [if_pos hcond]
    constructor
    · intro h; simp at h
    · intro hall
      exfalso
      apply hout
      rw [List.filterMap_eq_nil_iff]
      intro l hl
      rw [parseLine_none_iff]
      exact hall l hl

/-- C6: `parse([])` and `parse(["", "   "])` both fail with `MalformedBoard`
(the failed assertion is modelled as `none`), and in general `parse` fails
exactly when the input yields no rows after blank-line filtering — every
line strips to nothing — with no partial board returned on failure. -/
theorem parse_empty_input_rejection :
    parse [] defaultLive = none ∧
    parse [[], [' ', ' ', ' ']] defaultLive = none ∧
    ∀ (lines : List (List Char)) (live : List Char),
      (parse lines live = none ↔ ∀ l ∈ lines, pyStrip l = []) :=
  ⟨by decide, by decide, parse_none_iff⟩

/-- Witness for C6: a single all-blank line is rejected, by the general
characterization. -/
theorem parse_empty_input_rejection_witness :
    parse [[' ']] defaultLive = none :=
  (parse_empty_input_rejection.2.2 [[' ']] defaultLive).mpr (by decide)

/-! ## C3: parse/show round trip (corrected) -/

/-- C3 counterexample: with the plain two-character alphabet a Live cell
renders as `"# "`, so the 1×2 all-Live grid renders as the line `"# # "`,
which strips to `"# #"` and re-parses as the three-cell row
`[Live, Dead, Live]` — not the original grid. -/
theorem parse_show_roundtrip_plain_fails :
    parse (showRows [[LIVE, LIVE]] (LIVE_STR, DEAD_STR)) defaultLive ≠
      some [[LIVE, LIVE]] := by decide

theorem dropWhile_eq_self_of_forall {α : Type} (p : α → Bool) (l : List α)
    (h : ∀ c ∈ l, p c = false) : l.dropWhile p = l := by
  cases l with
  | nil => rfl
  | cons a t => rw [List.dropWhile_cons_of_neg (by simp [h a (by simp)])]

theorem pyStrip_eq_self (l : List Char) (h : ∀ c ∈ l, isPySpace c = false) :
    pyStrip l = l := by
  unfold pyStrip
  rw [dropWhile_eq_self_of_forall _ _ h,
    dropWhile_eq_self_of_forall _ _ (fun c hc => h c (List.mem_reverse.mp hc)),
    List.reverse_reverse]

theorem showRow_single (liveC deadC : Char) :
    ∀ r : Row, showRow ([liveC], [deadC]) r = r.map (fun c => if c then liveC else deadC) := by
  intro r
  induction r with
  | nil => rfl
  | cons c t ih =>
    unfold showRow
    unfold showRow at ih
    simp only [List.map_cons, List.flatten_cons, ih]
    cases c <;> simp

theorem filterMap_eq_self_of_forall_some {α : Type} (f : α → Option α) :
    ∀ l : List α, (∀ a ∈ l, f a = some a) → l.filterMap f = l := by
  intro l
  induction l with
  | nil => intro _; rfl
  | cons a t ih =>
    intro h
    simp [List.filterMap_cons, h a (by simp), ih (fun z hz => h z (by simp [hz]))]

/-- C3 (amended): the round trip holds for the one-character-per-cell
alphabet `("#", ".")` — exactly the encoding the program itself round-trips
through an external updater — rather than for the plain two-character
alphabet: rendering any grid with at least one row and uniform positive row
length and re-parsing the lines with the default live-marker set returns the
original grid. -/
theorem parse_show_roundtrip_dot (board : Board) (w : Nat) (hw : 0 < w)
    (hb : board ≠ []) (hlen : ∀ r ∈ board, r.length = w) :
    parse (showRows board (['#'], ['.'])) defaultLive = some board := by
  have hline : ∀ r ∈ board, parseLine defaultLive (showRow (['#'], ['.']) r) = some r := by
    intro r hr
    rw [showRow_single]
    unfold parseLine
    have hstrip : pyStrip (r.map (fun c => if c then '#' else '.')) =
        r.map (fun c => if c then '#' else '.') := by
      apply pyStrip_eq_self
      intro c hc
      rw [List.mem_map] at hc
      obtain ⟨b, _, hbc⟩ := hc
      rw [← hbc]
      cases b <;> decide
    rw [hstrip, if_neg (by rw [List.length_map, hlen r hr]; omega)]
    congr 1
    rw [List.map_map]
    have hid : ∀ c ∈ r, ((fun c => if c ∈ defaultLive then LIVE else DEAD) ∘
        (fun c => if c then '#' else '.')) c = c := by
      intro c _
      cases c <;> decide
    rw [List.map_congr_left hid, List.map_id']
  have houtput : (showRows board (['#'], ['.'])).filterMap (parseLine defaultLive) = board := by
    unfold showRows
    rw [List.filterMap_map]
    exact filterMap_eq_self_of_forall_some _ board (fun r hr => hline r hr)
  have hdef : parse (showRows board (['#'], ['.'])) defaultLive =
      (if 0 < ((showRows board (['#'], ['.'])).filterMap (parseLine defaultLive)).length ∧
          ((showRows board (['#'], ['.'])).filterMap (parseLine defaultLive)).all
            (fun row => 0 < row.length) then
        some ((showRows board (['#'], ['.'])).filterMap (parseLine defaultLive))
      else none) := rfl
  rw [hdef, houtput]
  have hcond : 0 < board.length ∧ board.all (fun row => 0 < row.length) = true := by
    refine ⟨List.length_pos.mpr hb, ?_⟩
    rw [List.all_eq_true]
    intro r hr
    simp only [decide_eq_true_eq]
    rw [hlen r hr]
    exact hw
  rw [if_pos hcond]

/-- Witness for C3 (amended) on the 2×1 grid `[[Live],[Dead]]`. -/
theorem parse_show_roundtrip_dot_witness :
    parse (showRows [[LIVE], [DEAD]] (['#'], ['.'])) defaultLive = some [[LIVE], [DEAD]] :=
  parse_show_roundtrip_dot [[LIVE], [DEAD]] 1 (by decide) (by decide) (by decide)

/-! ## C9: behavior of `shift` (corrected) -/

/-- C9 counterexample: a negative horizontal shift is a no-op — the Python
loop `for _ in range(x)` runs zero times for negative `x` — so the live cell
of `[[Dead, Live]]` is neither translated nor is anything removed or
appended: the board comes back unchanged. -/
theorem shift_negative_x_noop :
    shift [[DEAD, LIVE]] 0 (-1) = some [[DEAD, LIVE]] := by decide

/-- C9 (amended): for a nonempty board, a nonnegative `y` prepends `y`
all-Dead rows sized to the first row, a negative `y` appends `|y|` all-Dead
rows sized to the last row (no rows are ever removed), a positive `x`
prepends `x` Dead cells to every row, and a non-positive `x` leaves every
row unchanged. -/
theorem shift_amended (board : Board) (hb : board ≠ []) (y x : Int) :
    (0 ≤ y → shift board y x =
        some ((List.replicate y.toNat (List.replicate (board.headD []).length DEAD)
            ++ board).map (fun row => List.replicate x.toNat DEAD ++ row))) ∧
    (y < 0 → shift board y x =
        some ((board ++ List.replicate (-y).toNat
            (List.replicate (board.getLastD []).length DEAD)).map
          (fun row => List.replicate x.toNat DEAD ++ row))) ∧
    (x ≤ 0 → shift board 0 x = some board) := by
  obtain ⟨r0, hr0⟩ := exists_head?_of_ne_nil hb
  obtain ⟨rl, hrl⟩ := exists_getLast?_of_ne_nil hb
  refine ⟨?_, ?_, ?_⟩
  · intro hy
    unfold shift
    by_cases h0 : 0 < y
    · rw [if_pos h0, hr0, List.headD_eq_head?, hr0]
      rfl
    · have hy0 : y = 0 := by omega
      subst hy0
      rw [if_neg h0, if_neg (by omega)]
      simp
  · intro hy
    unfold shift
    rw [if_neg (by omega), if_pos hy, hrl, List.getLastD_eq_getLast?, hrl]
    rfl
  · intro hx
    unfold shift
    rw [if_neg (by omega), if_neg (by omega)]
    have ht : x.toNat = 0 := Int.toNat_of_nonpos hx
    simp [ht]

/-- Witness for C9 (amended): shifting `[[Live]]` by `y = 1, x = 2`. -/
theorem shift_amended_witness :
    shift [[LIVE]] 1 2 =
      some ((List.replicate (1 : Int).toNat
          (List.replicate (([[LIVE]] : Board).headD []).length DEAD)
        ++ [[LIVE]]).map (fun row => List.replicate (2 : Int).toNat DEAD ++ row)) :=
  (shift_amended [[LIVE]] (by decide) 1 2).1 (by decide)

/-! ## C4: sphere corner wraparound -/

/-- An all-Dead row of width `N`. -/
def deadRow (N : Nat) : Row := List.replicate N DEAD

/-- The `N × N` grid whose single Live cell is at `(0, 0)`. -/
def topLeftBoard (N : Nat) : Board :=
  (LIVE :: List.replicate (N - 1) DEAD) :: List.replicate (N - 1) (deadRow N)

/-- The `N × N` grid whose single Live cell is at `(N-1, N-1)`. -/
def bottomRightBoard (N : Nat) : Board :=
  List.replicate (N - 1) (deadRow N) ++ [List.replicate (N - 1) DEAD ++ [LIVE]]

theorem length_topLeftBoard (N : Nat) (h : 1 ≤ N) : (topLeftBoard N).length = N := by
  simp [topLeftBoard]
  omega

theorem length_bottomRightBoard (N : Nat) (h : 1 ≤ N) :
    (bottomRightBoard N).length = N := by
  simp [bottomRightBoard]
  omega

theorem deadRow_ne_nil (N : Nat) (h : 1 ≤ N) : deadRow N ≠ [] := by
  intro he
  have := congrArg List.length he
  simp [deadRow] at this
  omega

theorem mem_topLeftBoard_ne_nil (N : Nat) (h : 2 ≤ N) {r : Row}
    (hr : r ∈ topLeftBoard N) : r ≠ [] := by
  unfold topLeftBoard at hr
  rcases List.mem_cons.mp hr with h1 | h1
  · rw [h1]; simp
  · rw [List.eq_of_mem_replicate h1]
    exact deadRow_ne_nil N (by omega)

theorem mem_bottomRightBoard_ne_nil (N : Nat) (h : 2 ≤ N) {r : Row}
    (hr : r ∈ bottomRightBoard N) : r ≠ [] := by
  unfold bottomRightBoard at hr
  rcases List.mem_append.mp hr with h1 | h1
  · rw [List.eq_of_mem_replicate h1]
    exact deadRow_ne_nil N (by omega)
  · rw [List.mem_singleton.mp h1]
    simp

theorem getD_append_left {α : Type} (l l' : List α) (n : Nat) (d : α)
    (h : n < l.length) : (l ++ l').getD n d = l.getD n d := by
  rw [List.getD_eq_getElem?_getD, List.getD_eq_getElem?_getD, List.getElem?_append_left h]

theorem ix_out_of_range (row : Row) (x : Int) (d : Cell)
    (h : ¬(0 ≤ x ∧ x < (row.length : Int))) : ix row x d = d := by
  unfold ix; rw [if_neg h]

theorem topLeftBoard_getD_last (N : Nat) (h : 2 ≤ N) :
    (topLeftBoard N).getD (N - 1) [] = deadRow N := by
  obtain ⟨m, hm⟩ : ∃ m, N - 1 = m + 1 := ⟨N - 2, by omega⟩
  rw [topLeftBoard, hm, List.getD_cons_succ, getD_replicate', if_pos (by omega)]

theorem topLeft_prev_ne_nil (N : Nat) (h : 2 ≤ N) :
    prevRowOf (topLeftBoard N) Surface.sphere (N - 1) ≠ [] := by
  unfold prevRowOf
  rw [if_neg (by omega)]
  apply mem_topLeftBoard_ne_nil N h
  apply getD_mem_of_lt
  rw [length_topLeftBoard N (by omega)]
  omega

theorem topLeft_next_is_first_row (N : Nat) (h : 2 ≤ N) :
    nextRowOf (topLeftBoard N) Surface.sphere (N - 1) =
      LIVE :: List.replicate (N - 1) DEAD := by
  unfold nextRowOf
  rw [length_topLeftBoard N (by omega), if_neg (by omega), if_pos ⟨rfl, by omega⟩]
  rfl

theorem deadRow_getLast? (N : Nat) (h : 1 ≤ N) : (deadRow N).getLast? = some DEAD := by
  unfold deadRow
  obtain ⟨m, hm⟩ : ∃ m, N = m + 1 := ⟨N - 1, by omega⟩
  rw [hm, List.replicate_succ, getLast?_cons_replicate]
  simp

theorem deadRow_head? (N : Nat) (h : 1 ≤ N) : (deadRow N).head? = some DEAD := by
  unfold deadRow
  obtain ⟨m, hm⟩ : ∃ m, N = m + 1 := ⟨N - 1, by omega⟩
  rw [hm, List.replicate_succ]
  rfl

/-- C4: on a sphere-surface `N × N` grid (`N ≥ 2`) whose single Live cell is
at `(0,0)`, the neighbor count `update` computes for the cell at
`(N-1,N-1)` — with the `prev_row`/`next_row` values `update` supplies — is
positive, and symmetrically a single Live cell at `(N-1,N-1)` gives the cell
at `(0,0)` a positive count; moreover under sphere the `prev_row` of row 0
is the grid's last row and the `next_row` of the last row is the grid's
first row. -/
theorem sphere_corner_wraparound (N : Nat) (hN : 2 ≤ N) :
    (∃ k, neighbors ((N - 1 : Nat) : Int) ((topLeftBoard N).getD (N - 1) [])
        (prevRowOf (topLeftBoard N) Surface.sphere (N - 1))
        (nextRowOf (topLeftBoard N) Surface.sphere (N - 1)) Surface.sphere = some k ∧
      0 < k) ∧
    (∃ k, neighbors 0 ((bottomRightBoard N).getD 0 [])
        (prevRowOf (bottomRightBoard N) Surface.sphere 0)
        (nextRowOf (bottomRightBoard N) Surface.sphere 0) Surface.sphere = some k ∧
      0 < k) ∧
    prevRowOf (topLeftBoard N) Surface.sphere 0 = (topLeftBoard N).getLastD [] ∧
    nextRowOf (bottomRightBoard N) Surface.sphere (N - 1) =
      (bottomRightBoard N).headD [] := by
  have hrl : (deadRow N).getLast? = some DEAD := deadRow_getLast? N (by omega)
  have hrh : (deadRow N).head? = some DEAD := deadRow_head? N (by omega)
  refine ⟨?_, ?_, ?_, ?_⟩
  · -- live cell at (0,0); count at (N-1,N-1)
    obtain ⟨pl, hpl⟩ := exists_getLast?_of_ne_nil (topLeft_prev_ne_nil N hN)
    obtain ⟨ph, hph⟩ := exists_head?_of_ne_nil (topLeft_prev_ne_nil N hN)
    rw [topLeftBoard_getD_last N hN, topLeft_next_is_first_row N hN]
    have hnl : (LIVE :: List.replicate (N - 1) DEAD).getLast? = some DEAD := by
      rw [getLast?_cons_replicate, if_neg (by omega)]
    have hnh : (LIVE :: List.replicate (N - 1) DEAD).head? = some LIVE := rfl
    unfold neighbors
    rw [if_pos rfl, hrl, hrh, hnl, hnh, hpl, hph]
    refine ⟨_, rfl, ?_⟩
    apply count_true_pos
    have h5 : ix (LIVE :: List.replicate (N - 1) DEAD) (((N - 1 : Nat) : Int) + 1) LIVE
        = LIVE := by
      apply ix_out_of_range
      simp only [List.length_cons, List.length_replicate]
      intro hc
      omega
    rw [h5]
    simp
  · -- live cell at (N-1,N-1); count at (0,0)
    have hbne : bottomRightBoard N ≠ [] := by
      intro he
      have := congrArg List.length he
      rw [length_bottomRightBoard N (by omega)] at this
      simp at this
      omega
    have hrow2 : (bottomRightBoard N).getD 0 [] = deadRow N := by
      unfold bottomRightBoard
      rw [getD_append_left _ _ _ _ (by simp; omega), getD_replicate', if_pos (by omega)]
    have hprev2 : prevRowOf (bottomRightBoard N) Surface.sphere 0 =
        List.replicate (N - 1) DEAD ++ [LIVE] := by
      unfold prevRowOf
      rw [if_pos rfl, if_pos rfl, List.getLastD_eq_getLast?]
      unfold bottomRightBoard
      rw [List.getLast?_concat]
      rfl
    have hnext2_ne : nextRowOf (bottomRightBoard N) Surface.sphere 0 ≠ [] := by
      apply mem_bottomRightBoard_ne_nil N hN
      exact nextRowOf_sphere_mem (bottomRightBoard N) hbne 0
        (by rw [length_bottomRightBoard N (by omega)]; omega)
    obtain ⟨nl, hnl⟩ := exists_getLast?_of_ne_nil hnext2_ne
    obtain ⟨nh, hnh⟩ := exists_head?_of_ne_nil hnext2_ne
    have hpl2 : (List.replicate (N - 1) DEAD ++ [LIVE]).getLast? = some LIVE :=
      List.getLast?_concat _
    obtain ⟨ph2, hph2⟩ : ∃ a, (List.replicate (N - 1) DEAD ++ [LIVE]).head? = some a :=
      exists_head?_of_ne_nil (by simp)
    rw [hrow2, hprev2]
    unfold neighbors
    rw [if_pos rfl, hrl, hrh, hnl, hnh, hpl2, hph2]
    refine ⟨_, rfl, ?_⟩
    apply count_true_pos
    have h6 : ix (List.replicate (N - 1) DEAD ++ [LIVE]) ((0 : Int) - 1) LIVE = LIVE := by
      apply ix_out_of_range
      intro hc
      omega
    rw [h6]
    simp
  · unfold prevRowOf
    rw [if_pos rfl, if_pos rfl]
  · unfold nextRowOf
    rw [length_bottomRightBoard N (by omega), if_neg (by omega), if_pos ⟨rfl, by omega⟩]

/-- Witness for C4 at `N = 2`. -/
theorem sphere_corner_wraparound_witness :
    (∃ k, neighbors ((2 - 1 : Nat) : Int) ((topLeftBoard 2).getD (2 - 1) [])
        (prevRowOf (topLeftBoard 2) Surface.sphere (2 - 1))
        (nextRowOf (topLeftBoard 2) Surface.sphere (2 - 1)) Surface.sphere = some k ∧
      0 < k) ∧
    (∃ k, neighbors 0 ((bottomRightBoard 2).getD 0 [])
        (prevRowOf (bottomRightBoard 2) Surface.sphere 0)
        (nextRowOf (bottomRightBoard 2) Surface.sphere 0) Surface.sphere = some k ∧
      0 < k) ∧
    prevRowOf (topLeftBoard 2) Surface.sphere 0 = (topLeftBoard 2).getLastD [] ∧
    nextRowOf (bottomRightBoard 2) Surface.sphere (2 - 1) =
      (bottomRightBoard 2).headD [] :=
  sphere_corner_wraparound 2 (by decide)

/-! ## C7: a 2×2 all-Live block surrounded by Dead is a still life -/

/-- Indicator (on integer coordinates) of the 2×2 block whose top-left
corner is `(i, j)`. -/
def blockCell (i j : Nat) (Y X : Int) : Bool :=
  decide ((Y = (i : Int) ∨ Y = (i : Int) + 1) ∧ (X = (j : Int) ∨ X = (j : Int) + 1))

/-- Row `y` of the block board. -/
abbrev blockRow (W i j y : Nat) : Row :=
  (List.range W).map (fun (x : Nat) => blockCell i j (y : Int) (x : Int))

/-- The `H × W` grid whose Live cells are exactly the 2×2 block at `(i, j)`. -/
abbrev blockBoard (W H i j : Nat) : Board :=
  (List.range H).map (blockRow W i j)

/-- The live count among the eight neighbors of `(Y, X)` in the block
pattern, on the infinite plane. -/
def blockCount (i j : Nat) (Y X : Int) : Nat :=
  List.count true
    [blockCell i j Y (X - 1), blockCell i j Y (X + 1),
     blockCell i j (Y + 1) (X - 1), blockCell i j (Y + 1) X, blockCell i j (Y + 1) (X + 1),
     blockCell i j (Y - 1) (X - 1), blockCell i j (Y - 1) X, blockCell i j (Y - 1) (X + 1)]

theorem ix_nil (z : Int) (d : Cell) : ix [] z d = d := by
  unfold ix
  rw [if_neg (by intro hc; simp at hc; omega)]

theorem ix_map_range (W : Nat) (g : Nat → Bool) (z : Int) (d : Bool) :
    ix ((List.range W).map g) z d =
      if 0 ≤ z ∧ z < (W : Int) then g z.toNat else d := by
  unfold ix
  simp only [List.length_map, List.length_range]
  by_cases h : 0 ≤ z ∧ z < (W : Int)
  · rw [if_pos h, if_pos h, getD_map_range, if_pos (by omega)]
  · rw [if_neg h, if_neg h]

theorem ix_blockRow (W i j : Nat) (hj : j + 1 < W) (y : Nat) (z : Int) :
    ix (blockRow W i j y) z DEAD = blockCell i j (y : Int) z := by
  unfold blockRow
  rw [ix_map_range]
  by_cases h : 0 ≤ z ∧ z < (W : Int)
  · rw [if_pos h]
    simp only [Int.toNat_of_nonneg h.1]
  · rw [if_neg h]
    symm
    unfold blockCell
    apply decide_eq_false
    intro hc
    rcases hc.2 with hcc | hcc <;> omega

theorem blockBoard_getD (W H i j k : Nat) (hk : k < H) :
    (blockBoard W H i j).getD k [] = blockRow W i j k := by
  unfold blockBoard
  rw [getD_map_range, if_pos hk]

set_option maxHeartbeats 1000000 in
/-- On the infinite plane, every cell of (or around) a lone 2×2 block is
reproduced by the Game of Life rule applied to its neighbor count. -/
theorem blockCell_still (i j : Nat) (Y X : Int) :
    rule (blockCount i j Y X) (blockCell i j Y X) = blockCell i j Y X := by
  have hv : (¬(Y - 1 = (i:Int) ∨ Y - 1 = (i:Int) + 1) ∧ ¬(Y = (i:Int) ∨ Y = (i:Int) + 1) ∧ ¬(Y + 1 = (i:Int) ∨ Y + 1 = (i:Int) + 1)) ∨
      ((Y - 1 = (i:Int) ∨ Y - 1 = (i:Int) + 1) ∧ ¬(Y = (i:Int) ∨ Y = (i:Int) + 1) ∧ ¬(Y + 1 = (i:Int) ∨ Y + 1 = (i:Int) + 1)) ∨
      ((Y - 1 = (i:Int) ∨ Y - 1 = (i:Int) + 1) ∧ (Y = (i:Int) ∨ Y = (i:Int) + 1) ∧ ¬(Y + 1 = (i:Int) ∨ Y + 1 = (i:Int) + 1)) ∨
      (¬(Y - 1 = (i:Int) ∨ Y - 1 = (i:Int) + 1) ∧ (Y = (i:Int) ∨ Y = (i:Int) + 1) ∧ (Y + 1 = (i:Int) ∨ Y + 1 = (i:Int) + 1)) ∨
      (¬(Y - 1 = (i:Int) ∨ Y - 1 = (i:Int) + 1) ∧ ¬(Y = (i:Int) ∨ Y = (i:Int) + 1) ∧ (Y + 1 = (i:Int) ∨ Y + 1 = (i:Int) + 1)) := by
    omega
  have hh : (¬(X - 1 = (j:Int) ∨ X - 1 = (j:Int) + 1) ∧ ¬(X = (j:Int) ∨ X = (j:Int) + 1) ∧ ¬(X + 1 = (j:Int) ∨ X + 1 = (j:Int) + 1)) ∨
      ((X - 1 = (j:Int) ∨ X - 1 = (j:Int) + 1) ∧ ¬(X = (j:Int) ∨ X = (j:Int) + 1) ∧ ¬(X + 1 = (j:Int) ∨ X + 1 = (j:Int) + 1)) ∨
      ((X - 1 = (j:Int) ∨ X - 1 = (j:Int) + 1) ∧ (X = (j:Int) ∨ X = (j:Int) + 1) ∧ ¬(X + 1 = (j:Int) ∨ X + 1 = (j:Int) + 1)) ∨
      (¬(X - 1 = (j:Int) ∨ X - 1 = (j:Int) + 1) ∧ (X = (j:Int) ∨ X = (j:Int) + 1) ∧ (X + 1 = (j:Int) ∨ X + 1 = (j:Int) + 1)) ∨
      (¬(X - 1 = (j:Int) ∨ X - 1 = (j:Int) + 1) ∧ ¬(X = (j:Int) ∨ X = (j:Int) + 1) ∧ (X + 1 = (j:Int) ∨ X + 1 = (j:Int) + 1)) := by
    omega
  unfold blockCount blockCell rule
  rcases hv with ⟨h1, h2, h3⟩ | ⟨h1, h2, h3⟩ | ⟨h1, h2, h3⟩ | ⟨h1, h2, h3⟩ | ⟨h1, h2, h3⟩ <;>
    rcases hh with ⟨g1, g2, g3⟩ | ⟨g1, g2, g3⟩ | ⟨g1, g2, g3⟩ | ⟨g1, g2, g3⟩ | ⟨g1, g2, g3⟩ <;>
      simp [h1, h2, h3, g1, g2, g3, List.count_cons] <;> (split_ifs <;> first | omega | simp)

theorem neighbors_block (W H i j y x : Nat) (hi : i + 1 < H) (hj : j + 1 < W)
    (hy : y < H) :
    neighbors (x : Int) (blockRow W i j y)
      (prevRowOf (blockBoard W H i j) Surface.rectangle y)
      (nextRowOf (blockBoard W H i j) Surface.rectangle y) Surface.rectangle =
    some (blockCount i j (y : Int) (x : Int)) := by
  have hlen : (blockBoard W H i j).length = H := by unfold blockBoard; simp
  have hrow : ∀ z : Int, ix (blockRow W i j y) z DEAD = blockCell i j (y : Int) z :=
    fun z => ix_blockRow W i j hj y z
  have hprev : ∀ z : Int,
      ix (prevRowOf (blockBoard W H i j) Surface.rectangle y) z DEAD
        = blockCell i j ((y : Int) - 1) z := by
    intro z
    unfold prevRowOf
    by_cases h0 : y = 0
    · subst h0
      rw [if_pos rfl, if_neg (by simp), ix_nil]
      symm
      unfold blockCell
      apply decide_eq_false
      intro hc
      rcases hc.1 with hcc | hcc <;> omega
    · rw [if_neg h0, blockBoard_getD W H i j (y - 1) (by omega),
        ix_blockRow W i j hj (y - 1) z]
      have hc : ((y - 1 : Nat) : Int) = (y : Int) - 1 := by omega
      rw [hc]
  have hnext : ∀ z : Int,
      ix (nextRowOf (blockBoard W H i j) Surface.rectangle y) z DEAD
        = blockCell i j ((y : Int) + 1) z := by
    intro z
    unfold nextRowOf
    by_cases h1 : y + 1 < (blockBoard W H i j).length
    · rw [if_pos h1]
      rw [hlen] at h1
      rw [blockBoard_getD W H i j (y + 1) h1, ix_blockRow W i j hj (y + 1) z]
      have hc : ((y + 1 : Nat) : Int) = (y : Int) + 1 := by omega
      rw [hc]
    · rw [if_neg h1, if_neg (by simp), ix_nil]
      rw [hlen] at h1
      symm
      unfold blockCell
      apply decide_eq_false
      intro hc
      rcases hc.1 with hcc | hcc <;> omega
  unfold neighbors
  rw [if_neg (by simp)]
  unfold blockCount
  simp only [hrow, hprev, hnext]

/-- C7: every rectangle-surface grid whose Live cells form exactly one 2×2
block (the block lying inside the grid, all other cells Dead) is a fixed
point of the generation step. -/
theorem block_is_still_life (W H i j : Nat) (hi : i + 1 < H) (hj : j + 1 < W) :
    update (blockBoard W H i j) Surface.rectangle = some (blockBoard W H i j) := by
  unfold update
  rw [if_neg (by simp)]
  have hlen : (blockBoard W H i j).length = H := by unfold blockBoard; simp
  rw [hlen]
  apply optMap_eq_map
  intro y hy
  have hy' : y < H := List.mem_range.mp hy
  rw [blockBoard_getD W H i j y hy']
  unfold updateRow
  have hrl : (blockRow W i j y).length = W := by unfold blockRow; simp
  rw [hrl]
  apply optMap_eq_map
  intro x hx
  have hx' : x < W := List.mem_range.mp hx
  rw [neighbors_block W H i j y x hi hj hy']
  show some (rule (blockCount i j (y : Int) (x : Int)) ((blockRow W i j y).getD x DEAD))
      = some (blockCell i j (y : Int) (x : Int))
  have hcell : (blockRow W i j y).getD x DEAD = blockCell i j (y : Int) (x : Int) := by
    unfold blockRow
    rw [getD_map_range, if_pos hx']
  rw [hcell, blockCell_still]

/-- Witness for C7: the 2×2 block at `(1,1)` inside a 4×4 grid, fully
surrounded by Dead cells, is a fixed point. -/
theorem block_is_still_life_witness :
    update (blockBoard 4 4 1 1) Surface.rectangle = some (blockBoard 4 4 1 1) :=
  block_is_still_life 4 4 1 1 (by decide) (by decide)

/-! ## C8: the glider translates one cell diagonally every four steps -/

/-- The glider pattern placed with its top-left corner at `(y, x)` on an
all-Dead 10×10 board, built from the composer primitives. -/
def placedGlider (y x : Int) : Board :=
  add (empty 10 10) ((shift (glider true true) y x).getD [])

set_option maxHeartbeats 4000000 in
/-- C8: on a large all-Dead rectangle-surface grid with the canonical 3×3
glider placed far from every edge, four applications of `update` yield
exactly the same live-cell pattern translated one cell diagonally (up-left
for this orientation): the glider placed at `(3,3)` becomes the glider
placed at `(2,2)`. -/
theorem glider_translates_in_four_steps :
    (update (placedGlider 3 3) Surface.rectangle).bind (fun b1 =>
      (update b1 Surface.rectangle).bind (fun b2 =>
        (update b2 Surface.rectangle).bind (fun b3 =>
          update b3 Surface.rectangle))) = some (placedGlider 2 2) := by
  decide

end GameOfLife
